import Mathlib

/-!
Verification of the genetic-algorithm knapsack solver (`app.py`).

The Python source is embedded shallowly:

* An `Item` mirrors the `Item` dataclass (weights and values are Python
  ints, hence `Int` here).
* A Python `Individual` object is a heap cell holding its mutable bit
  list.  The heap is a `List (List Int)` (the *store*); an individual is
  the `Nat` index of its cell.  A population is a list of such indices.
  This makes the aliasing of the source observable: `mutate` writes
  through the index, exactly as the Python method mutates `self.bits`
  in place, so an object reachable both from the elite list and from
  the parent list is mutated in both roles at once.
* Every call to the process-wide `random` generator is a draw from an
  explicit `RNG` oracle, one field per primitive used by the source
  (`random.choice([0,1])`, `random.sample`, `random.random()`,
  `random.randint`).  Draws are taken from the front of the lists and
  normalised into the range the primitive guarantees (a `choice` draw
  is reduced mod 2, a `sample` index mod the population size, a
  `randint` draw into `[lo, hi]`), so that for *every* oracle the
  embedding only exhibits behaviours the Python primitives can
  produce; theorems quantified over the oracle therefore cover all
  runs of the source.  (`RNG.sample` does not force the sampled
  positions to be pairwise distinct, so it produces a superset of the
  behaviours of `random.sample`; no theorem below depends on
  distinctness.)
* A Python exception is an `error` value that is propagated to the
  caller, mirroring the `try/except` in `solve_knapsack`.
-/

structure Item where
  name : String
  weight : Int
  value : Int
deriving DecidableEq, Repr

/-- `ValueError` is raised by `random.randint(1, 0)` (empty range),
and by `max(())` on an empty population; `attrError` models calling
`.fitness()` on `None`; `outOfFuel` is an artefact of the embedding of
the unbounded `while` loop (shown unreachable where it matters). -/
inductive PyErr where
  | valueError
  | attrError
  | outOfFuel
deriving DecidableEq, Repr

/-- The explicit randomness oracle (see the module docstring). -/
structure RNG where
  choices : List Int
  samples : List (List Nat)
  uniforms : List ℚ
  ints : List Nat
deriving DecidableEq, Repr

/-- One draw of `random.choice([0, 1])`: the next oracle integer,
reduced to a bit. -/
def RNG.choice (r : RNG) : Int × RNG :=
  match r.choices with
  | [] => (0, r)
  | c :: cs => ((if c % 2 = 0 then 0 else 1), { r with choices := cs })

/-- One draw of `random.sample(population, k)` where the population has
`n` elements: `k` positions, each reduced mod `n`. -/
def RNG.sample (r : RNG) (n k : Nat) : List Nat × RNG :=
  match r.samples with
  | [] => ((List.range k).map (fun i => i % n), r)
  | s :: ss => (((s ++ List.range k).take k).map (fun i => i % n), { r with samples := ss })

/-- One draw of `random.random()`. -/
def RNG.uniform (r : RNG) : ℚ × RNG :=
  match r.uniforms with
  | [] => (0, r)
  | u :: us => (u, { r with uniforms := us })

/-- One draw of `random.randint(lo, hi)` with `lo ≤ hi`:
`lo + (draw mod (hi - lo + 1))`. -/
def RNG.randint (r : RNG) (lo hi : Nat) : Nat × RNG :=
  match r.ints with
  | [] => (lo, r)
  | j :: js => (lo + j % (hi - lo + 1), { r with ints := js })

/-- `sum(bit * item.value for item, bit in zip(self.items, self.bits))`
(from `Individual.fitness`). -/
def total_value (items : List Item) (bits : List Int) : Int :=
  ((items.zip bits).map (fun p => p.2 * p.1.value)).sum

/-- `sum(bit * item.weight for item, bit in zip(self.items, self.bits))`
(from `Individual.fitness` and `Individual.get_total_weight`). -/
def total_weight (items : List Item) (bits : List Int) : Int :=
  ((items.zip bits).map (fun p => p.2 * p.1.weight)).sum

/-- `Individual.fitness`: the total value when the weight cap is met,
otherwise `-abs(total_weight - max_weight)`. -/
def fitness (items : List Item) (max_weight : Int) (bits : List Int) : Int :=
  if total_weight items bits ≤ max_weight then total_value items bits
  else -((total_weight items bits - max_weight).natAbs : Int)

/-- `Individual.get_selected_items`: the items whose bit is `1`. -/
def get_selected_items (items : List Item) (bits : List Int) : List Item :=
  ((items.zip bits).filter (fun p => p.2 = 1)).map (fun p => p.1)

/-- `Individual.get_total_weight`. -/
def get_total_weight (items : List Item) (bits : List Int) : Int :=
  total_weight items bits

/-- `[random.choice([0, 1]) for _ in range(len(items))]`:
a fresh random bit list of length `n`. -/
def draw_bits (n : Nat) (r : RNG) : List Int × RNG :=
  match n with
  | 0 => ([], r)
  | m + 1 =>
    let (b, r1) := r.choice
    let (bs, r2) := draw_bits m r1
    (b :: bs, r2)

/-- The first loop of `generate_initial_population`:
`while len(population) < count and max_attempts > 0`, with
`max_attempts` as the fuel.  `population` is a `set`, but `Individual`
defines `__hash__` without `__eq__`, so set membership falls back to
object identity and *every* `add` of a freshly constructed individual
grows the set: the body appends one fresh cell per iteration and no
draw is ever rejected. -/
def init_loop (count : Nat) (items : List Item) :
    Nat → List (List Int) → RNG → List (List Int) × RNG
  | 0, store, r => (store, r)
  | attempts + 1, store, r =>
    if store.length < count then
      let (bits, r1) := draw_bits items.length r
      init_loop count items attempts (store ++ [bits]) r1
    else (store, r)

/-- `generate_initial_population(count, items, max_weight)`.  The first
loop adds one individual per iteration (see `init_loop`), so it always
reaches `count` members within the `count * 10` attempt budget and the
second `while len(population) < count` loop is dead code.  The store
holds the freshly allocated cells; the returned population lists them
in insertion order (the iteration order of the Python set is
unspecified; every claim settled below is insensitive to this order). -/
def generate_initial_population (count : Nat) (items : List Item) (max_weight : Int)
    (r : RNG) : List (List Int) × List Nat × RNG :=
  let _ := max_weight
  let (store, r1) := init_loop count items (count * 10) [] r
  (store, List.range store.length, r1)

/-- `max(candidates, key=lambda x: x.fitness())`: the first candidate
of maximal fitness (Python's `max` keeps the earlier element unless a
strictly greater key appears). -/
def best_of (items : List Item) (max_weight : Int) (store : List (List Int)) :
    List Nat → Nat
  | [] => 0
  | x :: xs =>
    xs.foldl
      (fun acc y =>
        if fitness items max_weight (store.getD y []) >
            fitness items max_weight (store.getD acc []) then y else acc) x

/-- `selection(population)`: tournament selection, or a plain random
sample of `min(2, len(population))` members when the population has
fewer than four members. -/
def selection (items : List Item) (max_weight : Int) (store : List (List Int))
    (pop : List Nat) (r : RNG) : List Nat × RNG :=
  if pop.length < 4 then
    let (idxs, r1) := r.sample pop.length (min 2 pop.length)
    (idxs.map (fun i => pop.getD i 0), r1)
  else
    let (t1, r1) := r.sample pop.length 4
    let w1 := best_of items max_weight store (t1.map (fun i => pop.getD i 0))
    let (t2, r2) := r1.sample pop.length 4
    let w2 := best_of items max_weight store (t2.map (fun i => pop.getD i 0))
    ([w1, w2], r2)

/-- Result of `crossover`: either new children ids (with the possibly
extended store), or a raised exception. -/
inductive CrossResult where
  | ok (store : List (List Int)) (children : List Nat) (r : RNG)
  | error (e : PyErr)
deriving DecidableEq, Repr

/-- `crossover(parents, items, max_weight, crossover_rate)`.  When
recombination does not trigger it returns the parent objects
themselves (no copies).  When it triggers, `random.randint(1,
len(items) - 1)` raises `ValueError` if `len(items) < 2`; otherwise
two fresh individuals are allocated with the one-point-spliced bits. -/
def crossover (items : List Item) (max_weight : Int) (crossover_rate : ℚ)
    (store : List (List Int)) (parents : List Nat) (r : RNG) : CrossResult :=
  let _ := max_weight
  if parents.length < 2 then .ok store parents r
  else
    let (u, r1) := r.uniform
    if u > crossover_rate then .ok store parents r1
    else if items.length < 2 then .error .valueError
    else
      let (p, r2) := r1.randint 1 (items.length - 1)
      let b0 := store.getD (parents.getD 0 0) []
      let b1 := store.getD (parents.getD 1 0) []
      let c1 := b0.take p ++ b1.drop p
      let c2 := b1.take p ++ b0.drop p
      .ok (store ++ [c1, c2]) [store.length, store.length + 1] r2

/-- The inner loop of `mutate`: flip each bit with probability
`mutation_rate` (one `random.random()` draw per position). -/
def mutate_bits (mutation_rate : ℚ) (bits : List Int) (r : RNG) : List Int × RNG :=
  match bits with
  | [] => ([], r)
  | b :: bs =>
    let (q, r1) := r.uniform
    let b2 := if q < mutation_rate then 1 - b else b
    let (bs2, r2) := mutate_bits mutation_rate bs r1
    (b2 :: bs2, r2)

/-- `mutate(individuals, mutation_rate)`: in-place mutation of each
listed individual, in order, writing through the store.  A repeated id
is mutated repeatedly, exactly as the Python loop visits a repeated
object twice. -/
def mutate (mutation_rate : ℚ) (store : List (List Int)) (ids : List Nat)
    (r : RNG) : List (List Int) × RNG :=
  match ids with
  | [] => (store, r)
  | id :: rest =>
    let (bs2, r1) := mutate_bits mutation_rate (store.getD id []) r
    mutate mutation_rate (store.set id bs2) rest r1

/-- Insert into a fitness-descending list, after all elements of
fitness strictly greater, before the first of fitness `≤` (this is the
placement a stable descending sort gives an element coming earlier in
the input than the list's elements). -/
def insert_desc (f : Nat → Int) (x : Nat) : List Nat → List Nat
  | [] => [x]
  | y :: ys => if f y > f x then y :: insert_desc f x ys else x :: y :: ys

/-- `sorted(population, key=lambda x: x.fitness(), reverse=True)`:
stable sort, descending by fitness. -/
def sort_desc (f : Nat → Int) : List Nat → List Nat
  | [] => []
  | x :: xs => insert_desc f x (sort_desc f xs)

/-- Result of `next_generation` (and of one step of the solve loop). -/
inductive GenResult where
  | ok (store : List (List Int)) (pop : List Nat) (r : RNG)
  | error (e : PyErr)
deriving DecidableEq, Repr

/-- The `while len(next_gen) < len(population)` loop of
`next_generation`, with explicit fuel.  Each iteration appends the
(mutated) result of `select → crossover → mutate`; exceptions
propagate.  On exit, `next_gen[:len(population)]` is returned.
`next_generation` passes `pop.length` as fuel, which is always enough:
the accumulator starts with at least one elite and grows by at least
one id per iteration whenever the population is non-empty. -/
def fill_loop (items : List Item) (max_weight : Int) (crossover_rate mutation_rate : ℚ)
    (pop : List Nat) :
    Nat → List (List Int) → List Nat → RNG → GenResult
  | fuel, store, acc, r =>
    if acc.length < pop.length then
      match fuel with
      | 0 => .error .outOfFuel
      | fuel' + 1 =>
        let (parents, r1) := selection items max_weight store pop r
        match crossover items max_weight crossover_rate store parents r1 with
        | .error e => .error e
        | .ok store1 children r2 =>
          let (store2, r3) := mutate mutation_rate store1 children r2
          fill_loop items max_weight crossover_rate mutation_rate pop
            fuel' store2 (acc ++ children) r3
    else .ok store (acc.take pop.length) r

/-- `next_generation(population, items, max_weight, crossover_rate,
mutation_rate)`: carry over the `max(1, len(population) // 10)` best
members unchanged by reference, then fill with selected, recombined
and mutated offspring. -/
def next_generation (items : List Item) (max_weight : Int)
    (crossover_rate mutation_rate : ℚ) (store : List (List Int)) (pop : List Nat)
    (r : RNG) : GenResult :=
  let elite_count := max 1 (pop.length / 10)
  let sorted_pop := sort_desc (fun i => fitness items max_weight (store.getD i [])) pop
  fill_loop items max_weight crossover_rate mutation_rate pop
    pop.length store (sorted_pop.take elite_count) r

/-- Result of the generational loop of `solve_knapsack`. -/
inductive EvolveResult where
  | ok (store : List (List Int)) (pop : List Nat) (best : Option Nat) (r : RNG)
  | error (e : PyErr)
deriving DecidableEq, Repr

/-- `max(population, key=..., default=None)`. -/
def python_max_best (items : List Item) (max_weight : Int) (store : List (List Int))
    (pop : List Nat) : Option Nat :=
  match pop with
  | [] => none
  | _ => some (best_of items max_weight store pop)

/-- The `for _ in range(generations)` loop of `solve_knapsack`:
replace the population, take `current_best = max(population, ...)`
(raising `ValueError` on an empty population), and replace the held
best only on strictly greater *current* fitness (the comparison
re-reads both individuals' bits through the store, as the Python
attribute calls do). -/
def evolve (items : List Item) (max_weight : Int) (crossover_rate mutation_rate : ℚ) :
    Nat → List (List Int) → List Nat → Option Nat → RNG → EvolveResult
  | 0, store, pop, best, r => .ok store pop best r
  | g + 1, store, pop, best, r =>
    match next_generation items max_weight crossover_rate mutation_rate store pop r with
    | .error e => .error e
    | .ok store1 pop1 r1 =>
      match pop1 with
      | [] => .error .valueError
      | _ =>
        let cb := best_of items max_weight store1 pop1
        match best with
        | none => .error .attrError
        | some b =>
          let best2 :=
            if fitness items max_weight (store1.getD cb []) >
                fitness items max_weight (store1.getD b []) then cb else b
          evolve items max_weight crossover_rate mutation_rate g store1 pop1
            (some best2) r1

/-- The success payload of `/solve`. -/
structure SolveResult where
  selected_items : List Item
  total_value : Int
  total_weight : Int
deriving DecidableEq, Repr

/-- A `/solve` response: the result mapping, or an error mapping. -/
inductive SolveOutcome where
  | ok (result : SolveResult)
  | error (msg : String)
deriving DecidableEq, Repr

/-- The result projection at the end of `solve_knapsack`: if the held
best exists (`if best_solution` — a non-`None` `Individual` is always
truthy) and its total weight meets the cap, report its selected items,
its *fitness* as `total_value`, and its total weight; otherwise report
the empty selection. -/
def project (items : List Item) (max_weight : Int) (store : List (List Int))
    (best : Option Nat) : SolveResult :=
  match best with
  | none => ⟨[], 0, 0⟩
  | some b =>
    let bits := store.getD b []
    if get_total_weight items bits ≤ max_weight then
      ⟨get_selected_items items bits, fitness items max_weight bits,
        get_total_weight items bits⟩
    else ⟨[], 0, 0⟩

/-- The recognized request options of the `/solve` endpoint (a missing
`items` field defaults to `[]`, exactly like an empty list). -/
structure Request where
  items : List Item
  max_weight : Int
  population_size : Nat
  generations : Nat
  crossover_rate : ℚ
  mutation_rate : ℚ
deriving DecidableEq, Repr

/-- `solve_knapsack()`: validate the catalog, build the initial
population, hold the best of it, run the generational loop, and
project the result; any exception is caught and reported as an error
response (the source formats it as `'An error occurred: ...'`; the
embedding keeps the fixed prefix).  The returned `RNG` is the state of
the process-wide generator after the call. -/
def solve_knapsack (req : Request) (r : RNG) : SolveOutcome × RNG :=
  if req.items.isEmpty then (.error "No items provided", r)
  else
    let (store, pop, r1) :=
      generate_initial_population req.population_size req.items req.max_weight r
    let best := python_max_best req.items req.max_weight store pop
    match evolve req.items req.max_weight req.crossover_rate req.mutation_rate
        req.generations store pop best r1 with
    | .error _ => (.error "An error occurred", r1)
    | .ok store2 _ best2 r2 =>
      (.ok (project req.items req.max_weight store2 best2), r2)

/-- Well-formed store: every cell holds a bit vector over the catalog. -/
def wf_store (items : List Item) (store : List (List Int)) : Prop :=
  ∀ b ∈ store, b.length = items.length ∧ ∀ x ∈ b, x = 0 ∨ x = 1

/-- Well-formed population: every id points into the store. -/
def wf_pop (store : List (List Int)) (pop : List Nat) : Prop :=
  ∀ i ∈ pop, i < store.length

instance (items : List Item) (store : List (List Int)) :
    Decidable (wf_store items store) := by
  unfold wf_store; infer_instance

instance (store : List (List Int)) (pop : List Nat) :
    Decidable (wf_pop store pop) := by
  unfold wf_pop; infer_instance

/-!
### Concrete instances

`demo_*` is a four-member population over a two-item catalog whose best
member (`id 0`, bits `[1,1]`, fitness `11`) is carried as the single
elite and is then also returned by both tournaments; the crossover
draw does not trigger recombination, so `crossover` hands the parent
*objects* back and `mutate` flips the best member's first bit in
place.  All four `sample` draws pick positions `0,1,2,3`; the uniform
draws are `1` (crossover skipped), `0,1,1,1` (first mutation pass:
flip bit 0 only), `1` (second crossover skipped), `1,1,1,1` (no
further flips).
-/

def demo_items : List Item := [⟨"A", 1, 10⟩, ⟨"B", 1, 1⟩]

def demo_store : List (List Int) := [[1, 1], [0, 0], [0, 1], [1, 0]]

def demo_pop : List Nat := [0, 1, 2, 3]

def demo_rng : RNG :=
  ⟨[], [[0, 1, 2, 3], [0, 1, 2, 3], [0, 1, 2, 3], [0, 1, 2, 3]],
    [1, 0, 1, 1, 1, 1, 1, 1, 1, 1], []⟩

def one_item : List Item := [⟨"A", 1, 1⟩]

def two_items : List Item := [⟨"A", 1, 1⟩, ⟨"B", 1, 2⟩]

/-- RNG trace for a one-item solve run: six choice draws for the
initial population, two tournament draws, then a uniform draw of `0`
that triggers recombination (and hence `random.randint(1, 0)`). -/
def rng9 : RNG := ⟨[0, 1, 0, 1, 0, 1], [[0, 1, 2, 3], [0, 1, 2, 3]], [0], []⟩

set_option maxHeartbeats 1600000 in
/-- C4: refuted on the code.  In the `demo` transition the only elite
(`id 0`, whose bit vector in the pre-transition store is `[1, 1]`) is
selected as both parents, handed back unrecombined by `crossover`, and
mutated in place; the next population `[0, 0, 0, 3]` therefore holds
no individual with bit vector `[1, 1]`: the top `elite_count`
candidate of the current population is not present unchanged in the
next population. -/
theorem spec_c4_bug :
    next_generation demo_items 10 (mkRat 1 2) (mkRat 1 2) demo_store demo_pop demo_rng
        = .ok [[0, 1], [0, 0], [0, 1], [1, 0]] [0, 0, 0, 3] ⟨[], [], [], []⟩
    ∧ (sort_desc (fun i => fitness demo_items 10 (demo_store.getD i [])) demo_pop).take
        (max 1 (demo_pop.length / 10)) = [0]
    ∧ demo_store.getD 0 [] = [1, 1]
    ∧ ¬ [1, 1] ∈ ([0, 0, 0, 3] : List Nat).map
        (fun i => ([[0, 1], [0, 0], [0, 1], [1, 0]] : List (List Int)).getD i []) := by
  decide

set_option maxHeartbeats 1600000 in
/-- C3: refuted on the code.  In the `demo` run the initial best-so-far
is `id 0` with fitness `11`; during the single generation its bits are
mutated in place (it is handed back by `crossover` as an un-recombined
parent), its fitness drops to `1`, and the loop then records `id 3`
(fitness `10`) as the new best: the best-so-far fitness goes from `11`
to `10`, strictly decreasing across a generation. -/
theorem spec_c3_bug :
    python_max_best demo_items 10 demo_store demo_pop = some 0
    ∧ fitness demo_items 10 (demo_store.getD 0 []) = 11
    ∧ evolve demo_items 10 (mkRat 1 2) (mkRat 1 2) 1 demo_store demo_pop (some 0) demo_rng
        = .ok [[0, 1], [0, 0], [0, 1], [1, 0]] [0, 0, 0, 3] (some 3) ⟨[], [], [], []⟩
    ∧ fitness demo_items 10 (([[0, 1], [0, 0], [0, 1], [1, 0]] : List (List Int)).getD 3 [])
        = 10 := by
  decide

/-- C7: refuted on the code.  With `count = 2` over a one-item catalog
and both draws giving the bit vector `[0]`, the returned population is
`[[0], [0]]`: a value-equal duplicate entered on the second of the
first `count * 10 = 20` draws (the oracle shows exactly two draws were
consumed), because the `set` deduplicates by object identity
(`Individual` has `__hash__` but no `__eq__`) and never rejects any
draw. -/
theorem spec_c7_bug :
    generate_initial_population 2 one_item 10 ⟨[0, 0], [], [], []⟩
      = ([[0], [0]], [0, 1], ⟨[], [], [], []⟩) := by
  decide

/-- C1 counterexample: with `max_weight = -1` and a best candidate of
total weight `1 > -1`, the code reports the empty selection with
`total_weight = 0`, and `0 > -1 = max_weight`: the returned result
*does* report `total_weight > max_weight`, refuting the claim's
unconditional no-overweight guarantee. -/
theorem spec_c1_cex :
    project [⟨"A", 1, 1⟩] (-1) [[1]] (some 0) = ⟨[], 0, 0⟩
    ∧ ¬ (project [⟨"A", 1, 1⟩] (-1) [[1]] (some 0)).total_weight ≤ (-1 : Int) := by
  decide

/-- C5 counterexample: parents with bits `[0, 1]` and `[0, 0]` over a
two-item catalog, recombination triggered, crossover point `1`: the
first child's bit vector equals the second parent's (`[0, 0]`), so
with `|catalog| = 2 > 1` it is not true that both children differ from
both parents. -/
theorem spec_c5_cex :
    crossover two_items 10 (mkRat 1 2) [[0, 1], [0, 0]] [0, 1] ⟨[], [], [0], [0]⟩
        = .ok [[0, 1], [0, 0], [0, 0], [0, 1]] [2, 3] ⟨[], [], [], []⟩
    ∧ 1 < two_items.length
    ∧ ([[0, 1], [0, 0], [0, 0], [0, 1]] : List (List Int)).getD 2 []
        = ([[0, 1], [0, 0]] : List (List Int)).getD 1 [] := by
  decide

/-!
### Pure facts about fitness and the result projection
-/

/-- The total value of a 0/1 bit vector over non-negatively valued
items is non-negative. -/
theorem total_value_nonneg : ∀ (items : List Item) (bits : List Int),
    (∀ x ∈ bits, x = 0 ∨ x = 1) → (∀ it ∈ items, 0 ≤ it.value) →
    0 ≤ total_value items bits
  | [], bits, _, _ => by simp [total_value]
  | _ :: _, [], _, _ => by simp [total_value]
  | it :: its, b :: bs, hb, hv => by
    have h2 : 0 ≤ total_value its bs :=
      total_value_nonneg its bs (fun x hx => hb x (List.mem_cons_of_mem _ hx))
        (fun i hi => hv i (List.mem_cons_of_mem _ hi))
    have hb0 : b = 0 ∨ b = 1 := hb b (List.mem_cons_self _ _)
    have hv0 : 0 ≤ it.value := hv it (List.mem_cons_self _ _)
    have h1 : 0 ≤ b * it.value := by
      rcases hb0 with h | h <;> simp [h, hv0]
    simp only [total_value, List.zip_cons_cons, List.map_cons, List.sum_cons] at h2 ⊢
    omega

/-- For a 0/1 bit vector, summing `f` over the selected items equals
the bit-weighted sum of `f` over the zipped catalog. -/
theorem selected_sum (f : Item → Int) : ∀ (items : List Item) (bits : List Int),
    (∀ x ∈ bits, x = 0 ∨ x = 1) →
    ((get_selected_items items bits).map f).sum
      = ((items.zip bits).map (fun p => p.2 * f p.1)).sum
  | [], bits, _ => by simp [get_selected_items]
  | _ :: _, [], _ => by simp [get_selected_items]
  | it :: its, b :: bs, hb => by
    have ih := selected_sum f its bs (fun x hx => hb x (List.mem_cons_of_mem _ hx))
    have hb0 : b = 0 ∨ b = 1 := hb b (List.mem_cons_self _ _)
    rcases hb0 with h | h <;>
      simp [get_selected_items, List.zip_cons_cons, h, ih] <;>
      simpa [get_selected_items] using ih

/-- C2: confirmed.  `fitness` returns the total value when
`total_weight ≤ max_weight` and minus the overshoot otherwise; hence
`fitness ≤ total_value` always, with equality exactly on feasible
candidates, and every infeasible candidate has strictly negative
fitness. -/
theorem spec_c2 (items : List Item) (max_weight : Int) (bits : List Int)
    (hb : ∀ x ∈ bits, x = 0 ∨ x = 1) (hv : ∀ it ∈ items, 0 ≤ it.value) :
    (total_weight items bits ≤ max_weight →
      fitness items max_weight bits = total_value items bits)
    ∧ (max_weight < total_weight items bits →
      fitness items max_weight bits = -(total_weight items bits - max_weight))
    ∧ fitness items max_weight bits ≤ total_value items bits
    ∧ (fitness items max_weight bits = total_value items bits
        ↔ total_weight items bits ≤ max_weight)
    ∧ (max_weight < total_weight items bits → fitness items max_weight bits < 0) := by
  have hv0 : 0 ≤ total_value items bits := total_value_nonneg items bits hb hv
  unfold fitness
  by_cases h : total_weight items bits ≤ max_weight
  · rw [if_pos h]; omega
  · rw [if_neg h]; omega

/-- C2 witness: the feasible singleton candidate `[1]` over a
one-item catalog. -/
theorem spec_c2_witness :
    (∀ x ∈ ([1] : List Int), x = 0 ∨ x = 1) ∧ (∀ it ∈ one_item, 0 ≤ it.value) ∧
    ((total_weight one_item [1] ≤ 10 →
      fitness one_item 10 [1] = total_value one_item [1])
    ∧ (10 < total_weight one_item [1] →
      fitness one_item 10 [1] = -(total_weight one_item [1] - 10))
    ∧ fitness one_item 10 [1] ≤ total_value one_item [1]
    ∧ (fitness one_item 10 [1] = total_value one_item [1]
        ↔ total_weight one_item [1] ≤ 10)
    ∧ (10 < total_weight one_item [1] → fitness one_item 10 [1] < 0)) :=
  ⟨by decide, by decide, spec_c2 one_item 10 [1] (by decide) (by decide)⟩

/-- C1 (amended): if the final best candidate's total weight is within
the cap the result reports exactly its selected items, their summed
value and their summed weight; otherwise the result is exactly the
empty selection with value `0` and weight `0`; and whenever
`max_weight ≥ 0` the reported `total_weight` never exceeds
`max_weight` (the unconditional form of that guarantee fails for a
negative cap, see the counterexample). -/
theorem spec_c1_amended (items : List Item) (max_weight : Int) (store : List (List Int))
    (b : Nat) (hb : ∀ x ∈ store.getD b [], x = 0 ∨ x = 1) :
    (total_weight items (store.getD b []) ≤ max_weight →
      project items max_weight store (some b)
        = ⟨get_selected_items items (store.getD b []),
            total_value items (store.getD b []),
            total_weight items (store.getD b [])⟩
      ∧ (((project items max_weight store (some b)).selected_items.map Item.value).sum
          = (project items max_weight store (some b)).total_value)
      ∧ (((project items max_weight store (some b)).selected_items.map Item.weight).sum
          = (project items max_weight store (some b)).total_weight))
    ∧ (max_weight < total_weight items (store.getD b []) →
        project items max_weight store (some b) = ⟨[], 0, 0⟩)
    ∧ (0 ≤ max_weight →
        (project items max_weight store (some b)).total_weight ≤ max_weight) := by
  by_cases h : total_weight items (store.getD b []) ≤ max_weight
  · have hfit : fitness items max_weight (store.getD b [])
        = total_value items (store.getD b []) := by
      unfold fitness; rw [if_pos h]
    have hproj : project items max_weight store (some b)
        = ⟨get_selected_items items (store.getD b []),
            total_value items (store.getD b []),
            total_weight items (store.getD b [])⟩ := by
      unfold project get_total_weight
      dsimp only
      rw [if_pos h, hfit]
    refine ⟨fun _ => ⟨hproj, ?_, ?_⟩, fun hlt => absurd h (not_le.mpr hlt), fun _ => ?_⟩
    · rw [hproj]; exact selected_sum Item.value items (store.getD b []) hb
    · rw [hproj]; exact selected_sum Item.weight items (store.getD b []) hb
    · rw [hproj]; exact h
  · have hproj : project items max_weight store (some b) = ⟨[], 0, 0⟩ := by
      unfold project get_total_weight
      dsimp only
      rw [if_neg h]
    exact ⟨fun hle => absurd hle h, fun _ => hproj, fun h0 => by rw [hproj]; exact h0⟩

/-- C1 witness: a feasible best candidate over a one-item catalog with
cap `10`. -/
theorem spec_c1_amended_witness :
    (∀ x ∈ (([[1]] : List (List Int)).getD 0 []), x = 0 ∨ x = 1) ∧
    ((total_weight one_item (([[1]] : List (List Int)).getD 0 []) ≤ 10 →
      project one_item 10 [[1]] (some 0)
        = ⟨get_selected_items one_item (([[1]] : List (List Int)).getD 0 []),
            total_value one_item (([[1]] : List (List Int)).getD 0 []),
            total_weight one_item (([[1]] : List (List Int)).getD 0 [])⟩
      ∧ (((project one_item 10 [[1]] (some 0)).selected_items.map Item.value).sum
          = (project one_item 10 [[1]] (some 0)).total_value)
      ∧ (((project one_item 10 [[1]] (some 0)).selected_items.map Item.weight).sum
          = (project one_item 10 [[1]] (some 0)).total_weight))
    ∧ (10 < total_weight one_item (([[1]] : List (List Int)).getD 0 []) →
        project one_item 10 [[1]] (some 0) = ⟨[], 0, 0⟩)
    ∧ (0 ≤ (10 : Int) →
        (project one_item 10 [[1]] (some 0)).total_weight ≤ 10)) :=
  ⟨by decide, spec_c1_amended one_item 10 [[1]] 0 (by decide)⟩

/-- C5 (amended): when two parents are given and the uniform draw does
not exceed `crossover_rate`, `crossover` picks a point `p` in
`[1, |catalog| - 1]` and allocates exactly the two children
`child1 = parent0.bits[0:p] + parent1.bits[p:]` and
`child2 = parent1.bits[0:p] + parent0.bits[p:]`; the children are
fresh individuals but need not differ from the parents as bit vectors
(see the counterexample). -/
theorem spec_c5_amended (items : List Item) (max_weight : Int) (crossover_rate : ℚ)
    (store : List (List Int)) (parents : List Nat) (cs : List Int)
    (ss : List (List Nat)) (u : ℚ) (us : List ℚ) (j : Nat) (js : List Nat)
    (hp : 2 ≤ parents.length) (hn : 2 ≤ items.length) (hu : u ≤ crossover_rate) :
    crossover items max_weight crossover_rate store parents ⟨cs, ss, u :: us, j :: js⟩
      = .ok (store ++
          [(store.getD (parents.getD 0 0) []).take (1 + j % (items.length - 1)) ++
             (store.getD (parents.getD 1 0) []).drop (1 + j % (items.length - 1)),
           (store.getD (parents.getD 1 0) []).take (1 + j % (items.length - 1)) ++
             (store.getD (parents.getD 0 0) []).drop (1 + j % (items.length - 1))])
          [store.length, store.length + 1] ⟨cs, ss, us, js⟩
    ∧ 1 ≤ 1 + j % (items.length - 1)
    ∧ 1 + j % (items.length - 1) ≤ items.length - 1 := by
  have hmod : j % (items.length - 1) < items.length - 1 := Nat.mod_lt _ (by omega)
  refine ⟨?_, by omega, by omega⟩
  unfold crossover
  rw [if_neg (by omega)]
  dsimp only [RNG.uniform]
  rw [if_neg (not_lt.mpr hu), if_neg (by omega)]
  dsimp only [RNG.randint]
  have he : items.length - 1 - 1 + 1 = items.length - 1 := by omega
  rw [he]

/-- C5 witness: a concrete triggered crossover over the two-item
catalog. -/
theorem spec_c5_amended_witness :
    (2 ≤ ([0, 1] : List Nat).length) ∧ (2 ≤ two_items.length) ∧ ((0 : ℚ) ≤ mkRat 1 2) ∧
    (crossover two_items 10 (mkRat 1 2) [[0, 1], [0, 0]] [0, 1] ⟨[], [], [0], [0]⟩
      = .ok ([[0, 1], [0, 0]] ++
          [(([[0, 1], [0, 0]] : List (List Int)).getD (([0, 1] : List Nat).getD 0 0) []).take
              (1 + 0 % (two_items.length - 1)) ++
             (([[0, 1], [0, 0]] : List (List Int)).getD (([0, 1] : List Nat).getD 1 0) []).drop
              (1 + 0 % (two_items.length - 1)),
           (([[0, 1], [0, 0]] : List (List Int)).getD (([0, 1] : List Nat).getD 1 0) []).take
              (1 + 0 % (two_items.length - 1)) ++
             (([[0, 1], [0, 0]] : List (List Int)).getD (([0, 1] : List Nat).getD 0 0) []).drop
              (1 + 0 % (two_items.length - 1))])
          [([[0, 1], [0, 0]] : List (List Int)).length,
           ([[0, 1], [0, 0]] : List (List Int)).length + 1] ⟨[], [], [], []⟩
    ∧ 1 ≤ 1 + 0 % (two_items.length - 1)
    ∧ 1 + 0 % (two_items.length - 1) ≤ two_items.length - 1) :=
  ⟨by decide, by decide, by decide,
    spec_c5_amended two_items 10 (mkRat 1 2) [[0, 1], [0, 0]] [0, 1] [] [] 0 [] 0 []
      (by decide) (by decide) (by decide)⟩

/-- C8: confirmed.  For every request whose items list is empty (a
missing list defaults to empty), `solve_knapsack` returns the
validation error response and leaves the random generator untouched:
no population is drawn and no fitness is evaluated. -/
theorem spec_c8 (max_weight : Int) (population_size generations : Nat)
    (crossover_rate mutation_rate : ℚ) (r : RNG) :
    solve_knapsack ⟨[], max_weight, population_size, generations,
        crossover_rate, mutation_rate⟩ r
      = (.error "No items provided", r) := rfl

/-- C8 witness: the default parameters with an empty catalog. -/
theorem spec_c8_witness :
    solve_knapsack ⟨[], 15, 6, 100, mkRat 53 100, mkRat 13 1000⟩ ⟨[], [], [], []⟩
      = (.error "No items provided", ⟨[], [], [], []⟩) :=
  spec_c8 15 6 100 (mkRat 53 100) (mkRat 13 1000) ⟨[], [], [], []⟩

/-- C9: confirmed.  Over a one-item catalog, whenever two parents are
selected and the uniform draw does not exceed `crossover_rate`,
`crossover` evaluates `random.randint(1, 0)` on the empty range and
raises `ValueError`; and for the concrete well-formed one-item request
(`max_weight 10`, population `6`, one generation, the default rates)
the exception propagates and `solve_knapsack` returns an error
response instead of a result. -/
theorem spec_c9 :
    (∀ (items : List Item) (max_weight : Int) (crossover_rate : ℚ)
        (store : List (List Int)) (parents : List Nat) (cs : List Int)
        (ss : List (List Nat)) (u : ℚ) (us : List ℚ) (js : List Nat),
        items.length = 1 → 2 ≤ parents.length → u ≤ crossover_rate →
        crossover items max_weight crossover_rate store parents ⟨cs, ss, u :: us, js⟩
          = .error .valueError)
    ∧ (solve_knapsack ⟨one_item, 10, 6, 1, mkRat 53 100, mkRat 13 1000⟩ rng9).1
        = .error "An error occurred" := by
  constructor
  · intro items max_weight crossover_rate store parents cs ss u us js h1 hp hu
    unfold crossover
    rw [if_neg (by omega)]
    dsimp only [RNG.uniform]
    rw [if_neg (not_lt.mpr hu), if_pos (by omega)]
  · decide

/-- C9 witness: the universal part applied to the one-item catalog
with two parents and a triggering draw. -/
theorem spec_c9_witness :
    crossover one_item 10 (mkRat 53 100) [[0], [1]] [1, 1] ⟨[], [], [0], []⟩
      = .error .valueError :=
  spec_c9.1 one_item 10 (mkRat 53 100) [[0], [1]] [1, 1] [] [] 0 [] []
    (by decide) (by decide) (by decide)

/-!
### Structural invariants of the populations
-/

/-- A helper: `getD` at a valid index is a member. -/
theorem getD_mem_list {α : Type} {l : List α} {d : α} {i : Nat} (h : i < l.length) :
    l.getD i d ∈ l := by
  rw [List.getD_eq_getElem l d h]
  exact List.getElem_mem h

/-- A `choice` draw is a bit. -/
theorem choice_01 (r : RNG) : (RNG.choice r).1 = 0 ∨ (RNG.choice r).1 = 1 := by
  cases r with
  | mk cs ss us is =>
    cases cs with
    | nil => exact Or.inl rfl
    | cons c cs2 => by_cases h : c % 2 = 0 <;> simp [RNG.choice, h]

/-- `draw_bits` yields exactly `n` bits. -/
theorem draw_bits_length : ∀ (n : Nat) (r : RNG), ((draw_bits n r).1).length = n
  | 0, _ => rfl
  | n + 1, r => by
    simp [draw_bits, draw_bits_length n]

/-- `draw_bits` yields only bits. -/
theorem draw_bits_01 : ∀ (n : Nat) (r : RNG), ∀ x ∈ (draw_bits n r).1, x = 0 ∨ x = 1
  | 0, _ => by simp [draw_bits]
  | n + 1, r => by
    simp only [draw_bits]
    intro x hx
    rcases List.mem_cons.mp hx with rfl | hx2
    · exact choice_01 r
    · exact draw_bits_01 n (RNG.choice r).2 x hx2

/-- The initializer's first loop grows the store by one cell per
iteration until `count` is reached or the attempt budget runs out. -/
theorem init_loop_length : ∀ (a count : Nat) (items : List Item)
    (s : List (List Int)) (r : RNG), s.length ≤ count →
    ((init_loop count items a s r).1).length = min count (s.length + a)
  | 0, count, items, s, r, h => by
    simp only [init_loop]
    omega
  | a + 1, count, items, s, r, h => by
    by_cases hlt : s.length < count
    · simp only [init_loop, if_pos hlt]
      have ih := init_loop_length a count items
        (s ++ [(draw_bits items.length r).1]) (draw_bits items.length r).2
        (by simp; omega)
      simp only [List.length_append, List.length_singleton] at ih
      rw [ih]
      omega
    · simp only [init_loop, if_neg hlt]
      omega

/-- The initializer's first loop preserves store well-formedness. -/
theorem init_loop_wf : ∀ (a count : Nat) (items : List Item)
    (s : List (List Int)) (r : RNG), wf_store items s →
    wf_store items (init_loop count items a s r).1
  | 0, _, _, s, _, h => h
  | a + 1, count, items, s, r, h => by
    by_cases hlt : s.length < count
    · simp only [init_loop, if_pos hlt]
      refine init_loop_wf a count items _ _ ?_
      intro b hb
      rcases List.mem_append.mp hb with h1 | h1
      · exact h b h1
      · rcases List.mem_singleton.mp h1 with rfl
        exact ⟨draw_bits_length items.length r, draw_bits_01 items.length r⟩
    · simp only [init_loop, if_neg hlt]
      exact h

/-- A `sample` draw returns exactly `k` positions. -/
theorem sample_length (r : RNG) (n k : Nat) : ((RNG.sample r n k).1).length = k := by
  cases r with
  | mk cs ss us is =>
    cases ss with
    | nil => simp [RNG.sample]
    | cons s ss2 =>
      simp [RNG.sample, List.length_take]

/-- A `sample` draw over a non-empty population returns valid positions. -/
theorem sample_lt (r : RNG) (n k : Nat) (hn : 0 < n) :
    ∀ i ∈ (RNG.sample r n k).1, i < n := by
  cases r with
  | mk cs ss us is =>
    cases ss with
    | nil =>
      intro i hi
      simp only [RNG.sample, List.mem_map] at hi
      obtain ⟨j, _, rfl⟩ := hi
      exact Nat.mod_lt j hn
    | cons s ss2 =>
      intro i hi
      simp only [RNG.sample, List.mem_map] at hi
      obtain ⟨j, _, rfl⟩ := hi
      exact Nat.mod_lt j hn

/-- The fold inside `best_of` picks its start or a list member. -/
theorem foldl_best_mem (items : List Item) (max_weight : Int) (store : List (List Int)) :
    ∀ (xs : List Nat) (a : Nat),
      xs.foldl (fun acc y => if fitness items max_weight (store.getD y []) >
          fitness items max_weight (store.getD acc []) then y else acc) a = a
      ∨ xs.foldl (fun acc y => if fitness items max_weight (store.getD y []) >
          fitness items max_weight (store.getD acc []) then y else acc) a ∈ xs
  | [], a => Or.inl rfl
  | x :: xs, a => by
    simp only [List.foldl_cons]
    rcases foldl_best_mem items max_weight store xs
        (if fitness items max_weight (store.getD x []) >
          fitness items max_weight (store.getD a []) then x else a) with h | h
    · rw [h]
      by_cases hc : fitness items max_weight (store.getD x []) >
          fitness items max_weight (store.getD a [])
      · rw [if_pos hc]; exact Or.inr (List.mem_cons_self _ _)
      · rw [if_neg hc]; exact Or.inl rfl
    · exact Or.inr (List.mem_cons_of_mem _ h)

/-- `best_of` of a non-empty candidate list is one of the candidates. -/
theorem best_of_mem (items : List Item) (max_weight : Int) (store : List (List Int)) :
    ∀ (t : List Nat), t ≠ [] → best_of items max_weight store t ∈ t
  | [], h => absurd rfl h
  | x :: xs, _ => by
    simp only [best_of]
    rcases foldl_best_mem items max_weight store xs x with h | h
    · rw [h]; exact List.mem_cons_self _ _
    · exact List.mem_cons_of_mem _ h

/-- `selection` over a non-empty population returns a non-empty list
of population members. -/
theorem selection_spec (items : List Item) (max_weight : Int) (store : List (List Int))
    (pop : List Nat) (r : RNG) (hne : pop ≠ []) :
    (∀ i ∈ (selection items max_weight store pop r).1, i ∈ pop)
    ∧ (selection items max_weight store pop r).1 ≠ [] := by
  have hlen : 0 < pop.length := List.length_pos.mpr hne
  unfold selection
  by_cases h4 : pop.length < 4
  · rw [if_pos h4]
    dsimp only
    constructor
    · intro i hi
      obtain ⟨j, hj, rfl⟩ := List.mem_map.mp hi
      exact getD_mem_list (sample_lt r pop.length (min 2 pop.length) hlen j hj)
    · apply List.length_pos.mp
      rw [List.length_map, sample_length]
      omega
  · rw [if_neg h4]
    dsimp only
    have hmem : ∀ (rr : RNG),
        best_of items max_weight store
          (((RNG.sample rr pop.length 4).1).map (fun i => pop.getD i 0)) ∈ pop := by
      intro rr
      have ht : (((RNG.sample rr pop.length 4).1).map (fun i => pop.getD i 0)) ≠ [] := by
        apply List.length_pos.mp
        rw [List.length_map, sample_length]
        omega
      have hb := best_of_mem items max_weight store _ ht
      obtain ⟨j, hj, hjeq⟩ := List.mem_map.mp hb
      rw [← hjeq]
      exact getD_mem_list (sample_lt rr pop.length 4 hlen j hj)
    constructor
    · intro i hi
      rcases List.mem_cons.mp hi with rfl | hi2
      · exact hmem r
      · rcases List.mem_cons.mp hi2 with rfl | hi3
        · exact hmem (RNG.sample r pop.length 4).2
        · cases hi3
    · simp

/-- `mutate_bits` preserves the vector length. -/
theorem mutate_bits_length (mutation_rate : ℚ) : ∀ (bits : List Int) (r : RNG),
    ((mutate_bits mutation_rate bits r).1).length = bits.length
  | [], _ => rfl
  | b :: bs, r => by
    simp [mutate_bits, mutate_bits_length mutation_rate bs]

/-- `mutate_bits` preserves bit-ness (a flip sends `0 ↦ 1`, `1 ↦ 0`). -/
theorem mutate_bits_01 (mutation_rate : ℚ) : ∀ (bits : List Int) (r : RNG),
    (∀ x ∈ bits, x = 0 ∨ x = 1) →
    ∀ x ∈ (mutate_bits mutation_rate bits r).1, x = 0 ∨ x = 1
  | [], _, _ => by simp [mutate_bits]
  | b :: bs, r, h => by
    simp only [mutate_bits]
    intro x hx
    rcases List.mem_cons.mp hx with rfl | hx2
    · rcases h b (List.mem_cons_self _ _) with hb | hb <;>
        by_cases hq : ((RNG.uniform r).1) < mutation_rate <;>
        simp [hb, hq]
    · exact mutate_bits_01 mutation_rate bs (RNG.uniform r).2
        (fun y hy => h y (List.mem_cons_of_mem _ hy)) x hx2

/-- `mutate` preserves the store length and its well-formedness. -/
theorem mutate_inv (mutation_rate : ℚ) (items : List Item) : ∀ (ids : List Nat)
    (store : List (List Int)) (r : RNG), wf_store items store →
    ((mutate mutation_rate store ids r).1).length = store.length
    ∧ wf_store items (mutate mutation_rate store ids r).1
  | [], store, r, h => ⟨rfl, h⟩
  | id :: rest, store, r, h => by
    simp only [mutate]
    by_cases hid : id < store.length
    · have hbits : store.getD id [] ∈ store := getD_mem_list hid
      have hwf2 : wf_store items
          (store.set id (mutate_bits mutation_rate (store.getD id []) r).1) := by
        intro b hb
        rcases List.mem_or_eq_of_mem_set hb with hb1 | hb1
        · exact h b hb1
        · subst hb1
          refine ⟨?_, mutate_bits_01 mutation_rate _ r (h _ hbits).2⟩
          rw [mutate_bits_length]
          exact (h _ hbits).1
      have ih := mutate_inv mutation_rate items rest
        (store.set id (mutate_bits mutation_rate (store.getD id []) r).1)
        (mutate_bits mutation_rate (store.getD id []) r).2 hwf2
      rw [ih.1, List.length_set]
      exact ⟨rfl, ih.2⟩
    · rw [List.set_eq_of_length_le (by omega)]
      exact mutate_inv mutation_rate items rest store _ h

/-- A successful `crossover` extends the store with well-formed cells
and returns valid, non-empty children whenever the parents are
non-empty. -/
theorem crossover_ok_inv (items : List Item) (max_weight : Int) (crossover_rate : ℚ)
    (store : List (List Int)) (parents : List Nat) (r : RNG)
    (hw : wf_store items store) (hp : ∀ i ∈ parents, i < store.length)
    {store2 : List (List Int)} {ch : List Nat} {r2 : RNG}
    (h : crossover items max_weight crossover_rate store parents r = .ok store2 ch r2) :
    store.length ≤ store2.length ∧ wf_store items store2
    ∧ (∀ i ∈ ch, i < store2.length) ∧ (parents ≠ [] → ch ≠ []) := by
  unfold crossover at h
  split at h
  · cases h
    exact ⟨le_refl _, hw, fun i hi => hp i hi, fun hne => hne⟩
  · rename_i hp2
    dsimp only at h
    split at h
    · cases h
      exact ⟨le_refl _, hw, fun i hi => hp i hi, fun hne => hne⟩
    · split at h
      · cases h
      · rename_i hcr hn2
        cases h
        have hlen2 : 2 ≤ parents.length := by omega
        have hb0 : store.getD (parents.getD 0 0) [] ∈ store :=
          getD_mem_list (hp _ (getD_mem_list (by omega)))
        have hb1 : store.getD (parents.getD 1 0) [] ∈ store :=
          getD_mem_list (hp _ (getD_mem_list (by omega)))
        have hn : 2 ≤ items.length := by omega
        have hplt : 1 + ((RNG.uniform r).2).ints.headD 0 % (items.length - 1)
            ≤ items.length := by
          have := Nat.mod_lt (((RNG.uniform r).2).ints.headD 0)
            (show 0 < items.length - 1 by omega)
          omega
        constructor
        · simp
        constructor
        · intro b hb
          rcases List.mem_append.mp hb with h1 | h1
          · exact hw b h1
          · have hlen0 := (hw _ hb0).1
            have hlen1 := (hw _ hb1).1
            have h01b0 := (hw _ hb0).2
            have h01b1 := (hw _ hb1).2
            rcases List.mem_cons.mp h1 with rfl | h2
            · constructor
              · rw [List.length_append, List.length_take, List.length_drop]
                omega
              · intro x hx
                rcases List.mem_append.mp hx with h3 | h3
                · exact h01b0 x (List.mem_of_mem_take h3)
                · exact h01b1 x (List.mem_of_mem_drop h3)
            · rcases List.mem_cons.mp h2 with rfl | h3
              · constructor
                · rw [List.length_append, List.length_take, List.length_drop]
                  omega
                · intro x hx
                  rcases List.mem_append.mp hx with h4 | h4
                  · exact h01b1 x (List.mem_of_mem_take h4)
                  · exact h01b0 x (List.mem_of_mem_drop h4)
              · cases h3
        constructor
        · intro i hi
          rcases List.mem_cons.mp hi with rfl | hi2
          · simp
          · rcases List.mem_cons.mp hi2 with rfl | hi3
            · simp
            · cases hi3
        · intro _
          simp

/-- Membership after `insert_desc`. -/
theorem insert_desc_mem (f : Nat → Int) (x : Nat) : ∀ (l : List Nat) (y : Nat),
    y ∈ insert_desc f x l → y = x ∨ y ∈ l
  | [], y, h => by
    simp [insert_desc] at h
    exact Or.inl h
  | z :: zs, y, h => by
    simp only [insert_desc] at h
    split at h
    · rcases List.mem_cons.mp h with rfl | h2
      · exact Or.inr (List.mem_cons_self _ _)
      · rcases insert_desc_mem f x zs y h2 with h3 | h3
        · exact Or.inl h3
        · exact Or.inr (List.mem_cons_of_mem _ h3)
    · rcases List.mem_cons.mp h with rfl | h2
      · exact Or.inl rfl
      · exact Or.inr h2

/-- Membership after the stable descending sort. -/
theorem sort_desc_mem (f : Nat → Int) : ∀ (l : List Nat) (y : Nat),
    y ∈ sort_desc f l → y ∈ l
  | [], y, h => by simp [sort_desc] at h
  | x :: xs, y, h => by
    simp only [sort_desc] at h
    rcases insert_desc_mem f x (sort_desc f xs) y h with rfl | h2
    · exact List.mem_cons_self _ _
    · exact List.mem_cons_of_mem _ (sort_desc_mem f xs y h2)

/-- The filling loop of `next_generation`: on success the next
population has exactly the input population's size and all its members
are valid ids of a well-formed store. -/
theorem fill_loop_inv (items : List Item) (max_weight : Int)
    (crossover_rate mutation_rate : ℚ) (pop : List Nat) :
    ∀ (fuel : Nat) (store : List (List Int)) (acc : List Nat) (r : RNG)
      (store2 : List (List Int)) (pop2 : List Nat) (r2 : RNG),
      wf_store items store → (∀ i ∈ pop, i < store.length) →
      (∀ i ∈ acc, i < store.length) →
      fill_loop items max_weight crossover_rate mutation_rate pop fuel store acc r
        = .ok store2 pop2 r2 →
      pop2.length = pop.length ∧ wf_store items store2 ∧ (∀ i ∈ pop2, i < store2.length)
  | 0, store, acc, r, store2, pop2, r2 => by
    intro hw hpop hacc h
    rw [fill_loop] at h
    split at h
    · simp at h
    · rename_i hlong
      cases h
      refine ⟨?_, hw, ?_⟩
      · rw [List.length_take]
        omega
      · intro i hi
        exact hacc i (List.mem_of_mem_take hi)
  | fuel' + 1, store, acc, r, store2, pop2, r2 => by
    intro hw hpop hacc h
    rw [fill_loop] at h
    split at h
    · rename_i hshort
      have hne : pop ≠ [] := by
        intro hnil
        rw [hnil] at hshort
        simp at hshort
      dsimp only at h
      split at h
      · simp at h
      · rename_i store1 children r2x heq
        have hsel := selection_spec items max_weight store pop r hne
        have hcross := crossover_ok_inv items max_weight crossover_rate store
          (selection items max_weight store pop r).1
          (selection items max_weight store pop r).2 hw
          (fun i hi => hpop i (hsel.1 i hi)) heq
        have hmut := mutate_inv mutation_rate items children store1
          r2x hcross.2.1
        refine fill_loop_inv items max_weight crossover_rate mutation_rate pop
          fuel' _ (acc ++ children) _ store2 pop2 r2 hmut.2 ?_ ?_ h
        · intro i hi
          rw [hmut.1]
          exact lt_of_lt_of_le (hpop i hi) hcross.1
        · intro i hi
          rw [hmut.1]
          rcases List.mem_append.mp hi with h1 | h1
          · exact lt_of_lt_of_le (hacc i h1) hcross.1
          · exact hcross.2.2.1 i h1
    · rename_i hlong
      cases h
      refine ⟨?_, hw, ?_⟩
      · rw [List.length_take]
        omega
      · intro i hi
        exact hacc i (List.mem_of_mem_take hi)

/-- C6: confirmed.  The initializer returns exactly `count` candidates,
each a bit vector of length `|catalog|` with bits in `{0, 1}`, and
every successful generation transition preserves both the population
size and the bit-vector invariant; hence every population of a run has
exactly `population_size` members with well-formed bit vectors. -/
theorem spec_c6 :
    (∀ (count : Nat) (items : List Item) (max_weight : Int) (r : RNG),
      ((generate_initial_population count items max_weight r).2.1).length = count
      ∧ ((generate_initial_population count items max_weight r).1).length = count
      ∧ wf_store items (generate_initial_population count items max_weight r).1
      ∧ wf_pop (generate_initial_population count items max_weight r).1
          (generate_initial_population count items max_weight r).2.1)
    ∧ (∀ (items : List Item) (max_weight : Int) (crossover_rate mutation_rate : ℚ)
        (store : List (List Int)) (pop : List Nat) (r : RNG)
        (store2 : List (List Int)) (pop2 : List Nat) (r2 : RNG),
        wf_store items store → wf_pop store pop →
        next_generation items max_weight crossover_rate mutation_rate store pop r
          = .ok store2 pop2 r2 →
        pop2.length = pop.length ∧ wf_store items store2 ∧ wf_pop store2 pop2) := by
  constructor
  · intro count items max_weight r
    have hlen : ((init_loop count items (count * 10) [] r).1).length = count := by
      have h0 := init_loop_length (count * 10) count items [] r (by simp)
      simp only [List.length_nil, Nat.zero_add] at h0
      rw [h0]
      omega
    have hwf : wf_store items (init_loop count items (count * 10) [] r).1 :=
      init_loop_wf (count * 10) count items [] r (by intro b hb; simp at hb)
    refine ⟨?_, ?_, ?_, ?_⟩
    · simp [generate_initial_population, hlen]
    · simpa [generate_initial_population] using hlen
    · simpa [generate_initial_population] using hwf
    · intro i hi
      simp only [generate_initial_population, List.mem_range] at hi
      simpa [generate_initial_population] using hi
  · intro items max_weight crossover_rate mutation_rate store pop r store2 pop2 r2 hw hpop h
    unfold next_generation at h
    exact fill_loop_inv items max_weight crossover_rate mutation_rate pop
      pop.length store _ r store2 pop2 r2 hw hpop
      (fun i hi => hpop i (sort_desc_mem _ pop i (List.mem_of_mem_take hi))) h

/-- C6 witness: the initializer at `count = 2` over the one-item
catalog, and a small successful generation transition over the
two-item catalog. -/
theorem spec_c6_witness :
    (((generate_initial_population 2 one_item 10 ⟨[0, 1], [], [], []⟩).2.1).length = 2
      ∧ ((generate_initial_population 2 one_item 10 ⟨[0, 1], [], [], []⟩).1).length = 2
      ∧ wf_store one_item (generate_initial_population 2 one_item 10 ⟨[0, 1], [], [], []⟩).1
      ∧ wf_pop (generate_initial_population 2 one_item 10 ⟨[0, 1], [], [], []⟩).1
          (generate_initial_population 2 one_item 10 ⟨[0, 1], [], [], []⟩).2.1)
    ∧ (wf_store two_items [[0, 0], [1, 1]] ∧ wf_pop [[0, 0], [1, 1]] [0, 1]
      ∧ next_generation two_items 10 0 0 [[0, 0], [1, 1]] [0, 1] ⟨[], [], [], []⟩
          = .ok [[0, 0], [1, 1], [0, 1], [1, 0]] [1, 2] ⟨[], [], [], []⟩
      ∧ (([1, 2] : List Nat).length = ([0, 1] : List Nat).length
        ∧ wf_store two_items [[0, 0], [1, 1], [0, 1], [1, 0]]
        ∧ wf_pop [[0, 0], [1, 1], [0, 1], [1, 0]] [1, 2])) :=
  ⟨spec_c6.1 2 one_item 10 ⟨[0, 1], [], [], []⟩,
    by decide, by decide, by decide,
    spec_c6.2 two_items 10 0 0 [[0, 0], [1, 1]] [0, 1] ⟨[], [], [], []⟩
      [[0, 0], [1, 1], [0, 1], [1, 0]] [1, 2] ⟨[], [], [], []⟩
      (by decide) (by decide) (by decide)⟩
